import Mathlib

/-!
Shallow embedding of the PixelCNN++ multi-GPU training script `train.py`
(repository aalitaiga/pixel-cnn).

The embedding models the parts of the script that the specification's claims
are about: the per-device loss/gradient aggregation loop, the bits-per-dim
normalization, the exponential-moving-average (Polyak) parameter shadowing,
the learning-rate decay schedule, the raster-order autoregressive sampler,
the feed-dict construction (batch splitting across devices), the top-level
control flow of the training loop (initialization / restore / train / save),
and the sample/checkpoint artifacts written on the save interval.

Scalars that are floats in the script are modelled as exact rationals; the
one irrational constant, `np.log(2.)`, is an explicit parameter of the
definition that uses it.  The
opaque neural network (`model_spec`) and the discretized-mixture sampling
primitive are modelled as opaque function parameters, with the flags the
script passes to them (`ema`, `dropout_p`) recorded explicitly.

Note on the source text: lines 191, 228 and 229 of `train.py` contain the
token sequence quote Montezuma + quote dot ext quote (an edit slip that makes
the literal unterminated for a Python tokenizer); the embedding reads these
as the evident concatenation of the string "Montezuma + " with the extension
string, which is the only reading consistent with the surrounding code.
-/

namespace PixelCnn

/-!
## Loss and gradient aggregation (train.py lines 117-147)

Each GPU `i` produces a scalar loss `loss_gen[i]` and a list of gradients
`grads[i]`, one entry per trainable parameter.  The aggregation loop is

    for i in range(1, nr_gpu):
        loss_gen[0] += loss_gen[i]
        for j in range(len(grads[0])):
            grads[0][j] += grads[i][j]

i.e. a left fold of an elementwise-addition step over the device list in
ascending device order, starting from device 0's result.
-/

/-- The per-device result of one forward/backward pass: the scalar loss and
the gradient list (one entry per trainable parameter, in a fixed order). -/
structure DeviceResult where
  loss : ℚ
  grads : List ℚ

/-- One iteration of the aggregation loop: add device `d`'s loss into the
accumulator and add its gradients elementwise (train.py lines 142-145). -/
def aggStep (acc d : DeviceResult) : DeviceResult :=
  ⟨acc.loss + d.loss, List.zipWith (fun a b => a + b) acc.grads d.grads⟩

/-- The full aggregation over the device list, in ascending device-index
order, starting from device 0's result (train.py lines 141-145).  The
script always has `nr_gpu ≥ 1`; on an empty list we return a zero result. -/
def aggregate : List DeviceResult → DeviceResult
  | [] => ⟨0, []⟩
  | d :: rest => rest.foldl aggStep d

/-!
## Bits-per-dim normalization (train.py lines 91, 149-151)
-/

/-- The fixed observation shape `obs_shape = (32, 32, 3)` (train.py line 91). -/
def obs_shape : List ℕ := [32, 32, 3]

/-- The number of scalar dimensions of one observation, `np.prod(obs_shape)`. -/
def pixelCount : ℕ := obs_shape.prod

/-- `bits_per_dim = loss_gen[0]/(args.nr_gpu*args.batch_size)`
(train.py line 150). -/
def bits_per_dim (lossSum : ℚ) (nrGpu batchSize : ℕ) : ℚ :=
  lossSum / (nrGpu * batchSize)

/-- `bits_per_dim_test =
  loss_gen_test[0]/(args.nr_gpu*np.log(2.)*np.prod(obs_shape)*args.batch_size)`
(train.py line 151); `np.log` is the natural logarithm, so `ln2` stands for
the irrational constant `np.log(2.)` (kept as a parameter because the
embedding's scalars are rationals). -/
def bits_per_dim_test (ln2 : ℚ) (lossSum : ℚ) (nrGpu batchSize : ℕ) : ℚ :=
  lossSum / (nrGpu * ln2 * pixelCount * batchSize)

/-!
## Exponential moving average of parameters (train.py lines 111-114, 147)

`tf.train.ExponentialMovingAverage(decay)` maintains, for every trainable
variable, a shadow variable updated on each `apply` as
shadow ← decay·shadow + (1−decay)·live; `maintain_averages_op` is grouped
with the Adam update into the single training op.
-/

/-- One EMA update of a single shadow value against the live value. -/
def emaStep (decay shadow live : ℚ) : ℚ :=
  decay * shadow + (1 - decay) * live

/-- The shadow value after `n` training steps, where `live k` is the live
parameter value seen at step `k` and `s0` the initial shadow value. -/
def shadowAt (decay s0 : ℚ) (live : ℕ → ℚ) : ℕ → ℚ
  | 0 => s0
  | n + 1 => emaStep decay (shadowAt decay s0 live n) (live n)

/-- One `ema.apply(all_params)` update over the whole parameter list:
every shadow entry is updated against the corresponding live entry. -/
def apply_ema (decay : ℚ) (shadows lives : List ℚ) : List ℚ :=
  List.zipWith (fun s p => emaStep decay s p) shadows lives

/-!
## Learning-rate schedule (train.py lines 182, 203-208)

`lr = args.learning_rate` is set once before the epoch loop; inside the
per-batch loop the script runs `lr *= args.lr_decay` and then feeds the new
value to the optimizer.  The value fed at a step therefore depends only on
how many batches have been processed so far, across all epochs.
-/

/-- One epoch's inner loop, threading the learning rate: for each batch,
first multiply `lr` by the decay factor, then use it for the update.
Returns the final `lr` and the list of values fed to the optimizer, in
order.  The batch contents (type `β`) are never read by the schedule. -/
def lrEpoch {β : Type} (decayF : ℚ) : ℚ → List β → ℚ × List ℚ
  | lr, [] => (lr, [])
  | lr, _ :: bs =>
    let r := lrEpoch decayF (lr * decayF) bs
    (r.1, (lr * decayF) :: r.2)

/-- The whole training run's learning-rate thread over a list of epochs
(each epoch a list of batches): `lr` carries over epoch boundaries. -/
def lrRun {β : Type} (decayF : ℚ) : ℚ → List (List β) → ℚ × List ℚ
  | lr, [] => (lr, [])
  | lr, ep :: eps =>
    let r := lrEpoch decayF lr ep
    let s := lrRun decayF r.1 eps
    (s.1, r.2 ++ s.2)

/-- The total number of optimization steps in a run: one per batch. -/
def totalSteps {β : Type} (epochs : List (List β)) : ℕ :=
  (epochs.map List.length).sum

/-!
## Model invocations (train.py lines 124, 131, 135)

The script builds three invocations of the opaque model per device; what
distinguishes them is which parameters they read (`ema=ema` reads the
shadow parameters, `ema=None` the live ones) and the dropout probability.
-/

/-- The flags of one invocation of the opaque model function. -/
structure ModelCall where
  useEma : Bool
  dropoutP : ℚ

/-- The training invocation: `model(xs[i], hs[i], ema=None,
dropout_p=args.dropout_p, **model_opt)` (train.py line 124). -/
def trainCall (dropoutP : ℚ) : ModelCall := ⟨false, dropoutP⟩

/-- The test invocation: `model(xs[i], hs[i], ema=ema, dropout_p=0.,
**model_opt)` (train.py line 131). -/
def testCall : ModelCall := ⟨true, 0⟩

/-- The sampling invocation used to build `new_x_gen`:
`model(xs[i], h_sample[i], ema=None, dropout_p=0, **model_opt)`
(train.py line 135). -/
def sampleCall : ModelCall := ⟨false, 0⟩

/-- Which parameter set an invocation reads: the shadow set when `ema` is
passed, the live set when `ema=None`. -/
def paramsUsed {P : Type} (live shadow : P) (c : ModelCall) : P :=
  if c.useEma then shadow else live

/-!
## Autoregressive sampler (train.py lines 154-161)

    def sample_from_model(sess):
        x_gen = [np.zeros(...)]
        for yi in range(obs_shape[0]):
            for xi in range(obs_shape[1]):
                new_x_gen_np = sess.run(new_x_gen, {xs[i]: x_gen[i] ...})
                x_gen[i][:,yi,xi,:] = new_x_gen_np[i][:,yi,xi,:]

The canvas is modelled per device as a map from (row, column) positions to
the (jointly produced) channel values at that position; the opaque pipeline
"run the model on the whole canvas, then sample from the returned
discretized mixture" is one opaque function `modelSample` from canvases to
canvas-shaped samples, of which the step commits a single position.
-/

/-- A sample canvas: channel values (modelled jointly as one real) at each
(row, column) position. -/
def Canvas : Type := ℕ × ℕ → ℚ

/-- The initial canvas `np.zeros(...)`. -/
def zeroCanvas : Canvas := fun _ => 0

/-- One transition of the sampler at position `p`: run the opaque
model-plus-sampling pipeline on the entire current canvas and commit only
position `p`'s value (train.py lines 158-160). -/
def sampleStep (modelSample : Canvas → Canvas) (c : Canvas) (p : ℕ × ℕ) : Canvas :=
  fun q => if q = p then modelSample c p else c q

/-- The raster scan order of the two nested loops `for yi in range(H): for
xi in range(W)`: row-major, top-to-bottom, left-to-right. -/
def rasterPositions (H W : ℕ) : List (ℕ × ℕ) :=
  (List.range H).flatMap (fun y => (List.range W).map (fun x => (y, x)))

/-- The whole sampling loop: fold the per-position transition over the
raster order, starting from the all-zero canvas. -/
def sample_from_model (modelSample : Canvas → Canvas) (H W : ℕ) : Canvas :=
  (rasterPositions H W).foldl (sampleStep modelSample) zeroCanvas

/-- Strict raster (row-major) order on positions. -/
def rasterLt (p q : ℕ × ℕ) : Prop :=
  p.1 < q.1 ∨ (p.1 = q.1 ∧ p.2 < q.2)

/-!
## Top-level control flow (train.py lines 183-229)

One event per observable action of the session loop: restoring a
checkpoint, running the data-dependent init pass, one combined
forward/backward/update training step, and the save-interval block.
-/

/-- The run configuration fields that determine the control flow. -/
structure RunConfig where
  loadParams : Bool
  maxEpochs : ℕ
  saveInterval : ℕ
deriving DecidableEq

/-- Observable events of the session loop. -/
inductive Event where
  | restoreCkpt : Event
  | initPass : Event
  | trainStep : Event
  | saveBlock : Event
deriving DecidableEq

/-- The events of epoch `e`, given that the data stream yields `nBatches`
batches this epoch: at epoch 0 either restore (when `--load_params`) or run
the init pass (which consumes one batch of the iterator, train.py line
197); then one training step per remaining batch; then, when
`e % save_interval == 0`, the sample/checkpoint save block. -/
def epochEvents (cfg : RunConfig) (e nBatches : ℕ) : List Event :=
  (if e = 0 then
    (if cfg.loadParams then [Event.restoreCkpt] else [Event.initPass])
   else [])
    ++ List.replicate
        (if e = 0 ∧ cfg.loadParams = false then nBatches - 1 else nBatches)
        Event.trainStep
    ++ (if e % cfg.saveInterval = 0 then [Event.saveBlock] else [])

/-- The whole run's event trace: epochs `0, 1, ..., max_epochs - 1` in
order, `batchesIn e` batches in epoch `e`. -/
def programTrace (cfg : RunConfig) (batchesIn : ℕ → ℕ) : List Event :=
  (List.range cfg.maxEpochs).flatMap (fun e => epochEvents cfg e (batchesIn e))

/-!
## Feed-dict construction (train.py lines 168-176) and failure phases
-/

/-- The input scaling `(x - 127.5) / 127.5` (train.py line 170). -/
def scalePixel (v : ℚ) : ℚ := (v - 127.5) / 127.5

/-- `np.split(x, n)`: splits into `n` equal contiguous parts; raises (here:
`none`) when `n` does not divide the length. -/
def np_split {α : Type} (x : List α) (n : ℕ) : Option (List (List α)) :=
  if n ≠ 0 ∧ n ∣ x.length then
    some ((List.range n).map (fun i => (x.drop (i * (x.length / n))).take (x.length / n)))
  else none

/-- `make_feed_dict(data, init)`: scale the batch; for the init pass feed it
whole to `x_init`, otherwise split it across the `nr_gpu` device
placeholders (train.py lines 168-176). -/
def make_feed_dict (data : List ℚ) (nrGpu : ℕ) (isInit : Bool) : Option (List (List ℚ)) :=
  let x := data.map scalePixel
  if isInit then some [x] else np_split x nrGpu

/-- The phases of a run, in execution order: argument parsing, graph
construction, the session init/restore, the training loop. -/
inductive Phase where
  | argparse : Phase
  | graphBuild : Phase
  | initRun : Phase
  | trainLoop : Phase
deriving DecidableEq

/-- The nonlinearity names the model accepts (train.py line 46-47 help
text). -/
def knownNonlinearities : List String := ["concat_elu", "elu", "relu"]

/-- Modelled from the spec: the nonlinearity-name check lives in the opaque
model function (`pixel_cnn_pp/model.py`, not under src/), which per the
spec rejects an unknown name; it runs during graph construction.  The
training script itself never validates the name. -/
def nonlinearityOk (s : String) : Bool := knownNonlinearities.contains s

/-- Whether a phase precedes all device work (graph construction precedes
the per-device graph loop; everything executed in the session is device
work). -/
def beforeDeviceWork : Phase → Bool
  | Phase.argparse => true
  | Phase.graphBuild => true
  | Phase.initRun => false
  | Phase.trainLoop => false

/-- Whether a feed (a list of per-placeholder row blocks) matches the
declared row count of the placeholders it is fed to: `tf.placeholder`
declares `x_init` with `init_batch_size` rows and each `xs[i]` with
`batch_size` rows (train.py lines 95-96), and a session run whose feed
disagrees with the declared placeholder shape raises. -/
def feedFits (parts : List (List ℚ)) (placeholderRows : ℕ) : Bool :=
  parts.all (fun part => part.length == placeholderRows)

/-- The outcome of building and feeding the first training feed dict
(train.py lines 204-208): `np.split` raises when the device count does not
divide the batch length; otherwise each of the `nr_gpu` slices, carrying
`batch_size / nr_gpu` rows, is fed to a placeholder declared with
`batch_size` rows, and the session run raises when those disagree. -/
def splitOutcome (batchSize nrGpu : ℕ) : Option Phase :=
  match make_feed_dict (List.replicate batchSize 0) nrGpu false with
  | none => some Phase.trainLoop
  | some parts =>
    if feedFits parts batchSize then none else some Phase.trainLoop

/-- The first phase at which a from-scratch run with the given
configuration fails, if any (the `--load_params` restore path is not
modelled): an unknown nonlinearity is rejected while the model graph is
built, before any device work.  The init pass (train.py lines 197-198)
feeds one stream batch — `batch_size` examples (line 90), despite the
comment on line 197 — whole to `x_init`, which is declared with
`init_batch_size` rows, and the session run fails on a mismatch.  After
that, the first training feed dict either fails inside `np.split` (batch
size not divisible by the device count) or feeds slices of
`batch_size / nr_gpu` rows to the `xs[i]` placeholders declared with
`batch_size` rows each (line 96), failing at the first training session
run whenever those disagree.  No validation at all happens at
argument-parsing time (train.py line 75). -/
def firstFailure (batchSize initBatchSize nrGpu : ℕ) (nonlin : String) : Option Phase :=
  if nonlinearityOk nonlin then
    match make_feed_dict (List.replicate batchSize 0) nrGpu true with
    | none => some Phase.initRun
    | some initParts =>
      if feedFits initParts initBatchSize then splitOutcome batchSize nrGpu
      else some Phase.initRun
  else some Phase.graphBuild

/-!
## Save-interval artifacts (train.py lines 216-229)
-/

/-- Kinds of files the save block writes. -/
inductive ArtifactKind where
  | image : ArtifactKind
  | array : ArtifactKind
  | ckpt : ArtifactKind
  | npzLog : ArtifactKind
deriving DecidableEq

/-- A file written by the save block: its path, kind, and (for the numeric
files) the numeric payload handed to the writer. -/
structure Artifact where
  name : String
  kind : ArtifactKind
  payload : List ℚ

/-- `test_bpd = []` (train.py line 181): the running evaluation
bits-per-dim list; no statement of the training loop ever appends to it. -/
def test_bpd_values : List ℚ := []

/-- The files written by the save block at a given epoch (train.py lines
216-229): the tiled-image plot of the first 100 samples, the raw sample
array, the parameter checkpoint (fixed name), and the `test_bpd` npz —
whose name is fixed (no epoch index) and to which `np.savez` is passed no
arrays at all. -/
def saveBlockArtifacts (saveDir : String) (epoch : ℕ) (sampleX : List ℚ) : List Artifact :=
  [ ⟨saveDir ++ "/Montezuma_sample" ++ toString epoch ++ ".png",
      ArtifactKind.image, sampleX.take 100⟩,
    ⟨saveDir ++ "/Montezuma_sample" ++ toString epoch ++ ".npz",
      ArtifactKind.array, sampleX⟩,
    ⟨saveDir ++ "/params_" ++ "Montezuma + " ++ ".ckpt",
      ArtifactKind.ckpt, []⟩,
    ⟨saveDir ++ "/test_bpd_" ++ "Montezuma + " ++ ".npz",
      ArtifactKind.npzLog, []⟩ ]

/-!
## Shared helper lemmas
-/

/-- `getD` of a `zipWith` of equally long lists is the operation applied to
the two `getD`s, provided the operation fixes the default. -/
theorem getD_zipWith_eq (f : ℚ → ℚ → ℚ) (hf : f 0 0 = 0) :
    ∀ (xs ys : List ℚ), xs.length = ys.length →
      ∀ j, (List.zipWith f xs ys).getD j 0 = f (xs.getD j 0) (ys.getD j 0) := by
  intro xs
  induction xs with
  | nil =>
    intro ys hlen j
    cases ys with
    | nil => simpa using hf.symm
    | cons y ys => simp at hlen
  | cons x xs ih =>
    intro ys hlen j
    cases ys with
    | nil => simp at hlen
    | cons y ys =>
      cases j with
      | zero => simp
      | succ j =>
        have hlen' : xs.length = ys.length := by simpa using hlen
        simpa using ih ys hlen' j

/-- The loss component of the aggregation fold. -/
theorem foldl_aggStep_loss (l : List DeviceResult) :
    ∀ a, (l.foldl aggStep a).loss = a.loss + (l.map DeviceResult.loss).sum := by
  induction l with
  | nil => intro a; simp
  | cons d l ih =>
    intro a
    rw [List.foldl_cons, ih]
    simp [aggStep, add_assoc]

/-- The gradient component of the aggregation fold: lengths are preserved
and each entry accumulates the elementwise sum. -/
theorem foldl_aggStep_grads (l : List DeviceResult) :
    ∀ a, (∀ d ∈ l, d.grads.length = a.grads.length) →
      (l.foldl aggStep a).grads.length = a.grads.length ∧
      ∀ j, (l.foldl aggStep a).grads.getD j 0
          = a.grads.getD j 0 + (l.map (fun d => d.grads.getD j 0)).sum := by
  induction l with
  | nil => intro a _; simp
  | cons d l ih =>
    intro a hlen
    have hd : d.grads.length = a.grads.length := hlen d (by simp)
    have hstep : (aggStep a d).grads.length = a.grads.length := by
      simp [aggStep, List.length_zipWith, hd]
    have hrest : ∀ e ∈ l, e.grads.length = (aggStep a d).grads.length := by
      intro e he
      rw [hstep]
      exact hlen e (by simp [he])
    obtain ⟨ihlen, ihget⟩ := ih (aggStep a d) hrest
    constructor
    · rw [List.foldl_cons, ihlen, hstep]
    · intro j
      rw [List.foldl_cons, ihget j]
      have : (aggStep a d).grads.getD j 0 = a.grads.getD j 0 + d.grads.getD j 0 :=
        getD_zipWith_eq (fun x y => x + y) (by ring) a.grads d.grads hd.symm j
      rw [this]
      simp [add_assoc]

/-!
## Claims C2, C3, C4
-/

/-- Claim C2: for every device count `D ≥ 1` and every list of `D`
per-device (loss, gradient-set) pairs with identical parameter ordering
(all gradient lists of length `n`), the aggregated loss is the sum of the
per-device losses, each aggregated gradient entry is the elementwise sum of
that entry across devices, and the accumulation is a left fold in ascending
device-index order (appending a device folds it in last). -/
theorem C2_gradient_aggregation (devs : List DeviceResult) (n : ℕ)
    (hne : devs ≠ []) (hlen : ∀ d ∈ devs, d.grads.length = n) :
    (aggregate devs).loss = (devs.map DeviceResult.loss).sum ∧
    (aggregate devs).grads.length = n ∧
    (∀ j, (aggregate devs).grads.getD j 0
        = (devs.map (fun d => d.grads.getD j 0)).sum) ∧
    (∀ d, aggregate (devs ++ [d]) = aggStep (aggregate devs) d) := by
  obtain ⟨d0, rest, rfl⟩ := List.exists_cons_of_ne_nil hne
  have hd0 : d0.grads.length = n := hlen d0 (by simp)
  have hrest : ∀ d ∈ rest, d.grads.length = d0.grads.length := by
    intro d hd
    rw [hd0]
    exact hlen d (by simp [hd])
  obtain ⟨hl, hg⟩ := foldl_aggStep_grads rest d0 hrest
  refine ⟨?_, ?_, ?_, ?_⟩
  · rw [show aggregate (d0 :: rest) = rest.foldl aggStep d0 from rfl,
      foldl_aggStep_loss, List.map_cons, List.sum_cons]
  · rw [show aggregate (d0 :: rest) = rest.foldl aggStep d0 from rfl, hl, hd0]
  · intro j
    rw [show aggregate (d0 :: rest) = rest.foldl aggStep d0 from rfl, hg j,
      List.map_cons, List.sum_cons]
  · intro d
    rw [show (d0 :: rest) ++ [d] = d0 :: (rest ++ [d]) from rfl,
      show aggregate (d0 :: (rest ++ [d])) = (rest ++ [d]).foldl aggStep d0 from rfl,
      List.foldl_append,
      show aggregate (d0 :: rest) = rest.foldl aggStep d0 from rfl]
    rfl

/-- Witness for C2 at two concrete devices. -/
theorem C2_gradient_aggregation_witness :
    (aggregate [⟨3, [1, 2]⟩, ⟨5, [10, 20]⟩]).loss
      = (List.map DeviceResult.loss [⟨3, [1, 2]⟩, ⟨5, [10, 20]⟩]).sum :=
  (C2_gradient_aggregation [⟨3, [1, 2]⟩, ⟨5, [10, 20]⟩] 2 (by simp)
    (by decide)).1

/-- Claim C3: the training metric is the aggregated loss divided by
(device count × per-device batch size); the evaluation metric is the
aggregated test loss divided by the same and additionally by
(log 2 × pixel count), where the pixel count is the product of the
observation dimensions. -/
theorem C3_bits_per_dim (L Lt ln2 : ℚ) (g b : ℕ) :
    bits_per_dim L g b = L / (g * b) ∧
    bits_per_dim_test ln2 Lt g b = Lt / (g * b) / (ln2 * pixelCount) ∧
    pixelCount = obs_shape.prod ∧ (pixelCount : ℚ) = 32 * 32 * 3 := by
  refine ⟨rfl, ?_, rfl, by norm_num [pixelCount, obs_shape]⟩
  rw [bits_per_dim_test, div_div]
  ring_nf

/-- Claim C4: with device count 2 and batch size 4 and per-device losses
3.0 and 5.0, the aggregated training loss is 8.0, the reported training
bits-per-dim is 8/(2·4) = 1, and the feed dict hands each of the two
devices 2 of the 4 examples. -/
theorem C4_example_scenario :
    (aggregate [⟨3, [0]⟩, ⟨5, [0]⟩]).loss = 8 ∧
    bits_per_dim 8 2 4 = 1 ∧
    ∃ parts, make_feed_dict (List.replicate 4 0) 2 false = some parts ∧
      parts.map List.length = [2, 2] := by
  refine ⟨?_, ?_, ?_⟩
  · norm_num [aggregate, aggStep]
  · norm_num [bits_per_dim]
  · refine ⟨_, rfl, ?_⟩
    rfl

/-!
## Claims C6, C7
-/

/-- Closed form of the EMA recurrence: after `N` steps the shadow value is
`decay^N` times the initial shadow plus the decay-weighted history of the
live values seen. -/
theorem shadowAt_closed_form (d s0 : ℚ) (live : ℕ → ℚ) :
    ∀ N, shadowAt d s0 live N
      = d ^ N * s0 + ∑ k ∈ Finset.range N, (1 - d) * d ^ (N - 1 - k) * live k := by
  intro N
  induction N with
  | zero => simp [shadowAt]
  | succ n ih =>
    have h1 : ∀ k ∈ Finset.range n, (1 - d) * d ^ (n + 1 - 1 - k) * live k
        = d * ((1 - d) * d ^ (n - 1 - k) * live k) := by
      intro k hk
      have hk' : k < n := Finset.mem_range.mp hk
      have he : n + 1 - 1 - k = (n - 1 - k) + 1 := by omega
      rw [he, pow_succ]
      ring
    rw [show shadowAt d s0 live (n + 1)
        = emaStep d (shadowAt d s0 live n) (live n) from rfl,
      emaStep, ih, Finset.sum_range_succ, Finset.sum_congr rfl h1,
      ← Finset.mul_sum, show n + 1 - 1 - n = 0 from by omega]
    ring

/-- The EMA weights over a history of length `N` sum to `1 - decay^N`. -/
theorem ema_weight_sum (d : ℚ) (N : ℕ) :
    (∑ k ∈ Finset.range N, (1 - d) * d ^ (N - 1 - k)) = 1 - d ^ N := by
  rw [← Finset.mul_sum, Finset.sum_range_reflect (fun j => d ^ j) N]
  have h2 := geom_sum_mul d N
  linear_combination -h2

/-- Claim C6: each update sets every shadow entry to
`decay·shadow + (1−decay)·live`; after `N` steps the shadow equals
`decay^N` times its initial value plus the decay-weighted history of live
values, whose weights sum to `1 − decay^N`; and the shadow list mirrors
the live list in length. -/
theorem C6_ema_update (d s0 : ℚ) (live : ℕ → ℚ) (N : ℕ)
    (shadows lives : List ℚ) (h : shadows.length = lives.length) :
    shadowAt d s0 live N
        = d ^ N * s0 + ∑ k ∈ Finset.range N, (1 - d) * d ^ (N - 1 - k) * live k ∧
    (∑ k ∈ Finset.range N, (1 - d) * d ^ (N - 1 - k)) = 1 - d ^ N ∧
    (apply_ema d shadows lives).length = lives.length ∧
    ∀ j, (apply_ema d shadows lives).getD j 0
        = emaStep d (shadows.getD j 0) (lives.getD j 0) := by
  refine ⟨shadowAt_closed_form d s0 live N, ema_weight_sum d N, ?_, ?_⟩
  · simp [apply_ema, List.length_zipWith, h]
  · intro j
    exact getD_zipWith_eq (fun s p => emaStep d s p) (by simp [emaStep]) shadows lives h j

/-- Witness for C6 at a concrete decay, history and parameter lists. -/
theorem C6_ema_update_witness :
    (apply_ema (1/2) [1] [2]).length = ([2] : List ℚ).length :=
  (C6_ema_update (1/2) 0 (fun _ => 1) 1 [1] [2] rfl).2.2.1

/-- The per-epoch learning-rate thread: starting from `lr`, the final value
has decayed once per batch and the values fed to the optimizer are
`lr·d^1, lr·d^2, ...` in order. -/
theorem lrEpoch_spec {β : Type} (d : ℚ) :
    ∀ (bs : List β) (lr : ℚ),
      (lrEpoch d lr bs).1 = lr * d ^ bs.length ∧
      (lrEpoch d lr bs).2
        = (List.range bs.length).map (fun t => lr * d ^ (t + 1)) := by
  intro bs
  induction bs with
  | nil => intro lr; simp [lrEpoch]
  | cons b bs ih =>
    intro lr
    obtain ⟨ih1, ih2⟩ := ih (lr * d)
    constructor
    · rw [show (lrEpoch d lr (b :: bs)).1 = (lrEpoch d (lr * d) bs).1 from rfl,
        ih1, List.length_cons, pow_succ]
      ring
    · rw [show (lrEpoch d lr (b :: bs)).2
          = (lr * d) :: (lrEpoch d (lr * d) bs).2 from rfl, ih2,
        List.length_cons, List.range_succ_eq_map, List.map_cons, List.map_map]
      refine congrArg₂ _ (by ring) (List.map_congr_left ?_)
      intro t _
      simp only [Function.comp_apply, Nat.succ_eq_add_one]
      rw [pow_succ]
      ring

/-- The whole-run learning-rate thread: only the total number of batches
matters, not their content or their grouping into epochs. -/
theorem lrRun_spec {β : Type} (d : ℚ) :
    ∀ (eps : List (List β)) (lr : ℚ),
      (lrRun d lr eps).1 = lr * d ^ totalSteps eps ∧
      (lrRun d lr eps).2
        = (List.range (totalSteps eps)).map (fun t => lr * d ^ (t + 1)) := by
  intro eps
  induction eps with
  | nil => intro lr; simp [lrRun, totalSteps]
  | cons ep eps ih =>
    intro lr
    obtain ⟨he1, he2⟩ := lrEpoch_spec d ep lr
    obtain ⟨ih1, ih2⟩ := ih (lrEpoch d lr ep).1
    have htot : totalSteps (ep :: eps) = ep.length + totalSteps eps := by
      simp [totalSteps]
    constructor
    · rw [show (lrRun d lr (ep :: eps)).1
          = (lrRun d (lrEpoch d lr ep).1 eps).1 from rfl, ih1, he1, htot, pow_add]
      ring
    · rw [show (lrRun d lr (ep :: eps)).2
          = (lrEpoch d lr ep).2 ++ (lrRun d (lrEpoch d lr ep).1 eps).2 from rfl,
        he2, ih2, he1, htot, List.range_add, List.map_append, List.map_map]
      refine congrArg₂ _ rfl (List.map_congr_left ?_)
      intro t _
      simp only [Function.comp_apply]
      rw [pow_add]
      ring

/-- Claim C7: the learning rate fed to the optimizer at the `t`-th step
(1-indexed; the decay is applied before each step) is
`initial_lr · decay^t`, and after any run the rate is
`initial_lr · decay^(number of steps)` — depending only on the number of
batches processed, not on batch content or epoch boundaries, with no
floor. -/
theorem C7_learning_rate {β : Type} (lr0 d : ℚ) (eps : List (List β)) :
    (lrRun d lr0 eps).1 = lr0 * d ^ totalSteps eps ∧
    (lrRun d lr0 eps).2
      = (List.range (totalSteps eps)).map (fun t => lr0 * d ^ (t + 1)) :=
  lrRun_spec d eps lr0

/-!
## Raster-scan lemmas (for claims C1 and C5)
-/

/-- Membership in the raster scan: exactly the in-range positions. -/
theorem mem_rasterPositions {H W : ℕ} {p : ℕ × ℕ} :
    p ∈ rasterPositions H W ↔ p.1 < H ∧ p.2 < W := by
  constructor
  · intro hp
    simp only [rasterPositions, List.mem_flatMap, List.mem_map, List.mem_range] at hp
    obtain ⟨y, hy, x, hx, rfl⟩ := hp
    exact ⟨hy, hx⟩
  · intro h
    simp only [rasterPositions, List.mem_flatMap, List.mem_map, List.mem_range]
    exact ⟨p.1, h.1, p.2, h.2, rfl⟩

/-- Raster order is asymmetric. -/
theorem rasterLt_asymm {p q : ℕ × ℕ} (h1 : rasterLt p q) (h2 : rasterLt q p) :
    False := by
  simp only [rasterLt] at h1 h2
  omega

/-- The scan list is strictly increasing in raster (row-major) order. -/
theorem pairwise_rasterPositions (H W : ℕ) :
    (rasterPositions H W).Pairwise rasterLt := by
  rw [rasterPositions, List.pairwise_flatMap]
  constructor
  · intro y _
    rw [List.pairwise_map]
    exact (List.pairwise_lt_range W).imp (fun hab => Or.inr ⟨rfl, hab⟩)
  · refine (List.pairwise_lt_range H).imp ?_
    intro y1 y2 h12 p hp q hq
    simp only [List.mem_map, List.mem_range] at hp hq
    obtain ⟨x1, _, rfl⟩ := hp
    obtain ⟨x2, _, rfl⟩ := hq
    exact Or.inl h12

/-- A member of a duplicate-free list is counted exactly once (stated for
any lawful boolean equality, to match however `count` elaborates). -/
theorem count_eq_one_of_nodup_mem {α : Type} [BEq α] [LawfulBEq α]
    {l : List α} {a : α} (hnd : l.Nodup) (ha : a ∈ l) : l.count a = 1 := by
  induction l with
  | nil => cases ha
  | cons b l ih =>
    rw [List.nodup_cons] at hnd
    rcases List.mem_cons.mp ha with rfl | hmem
    · rw [List.count_cons_self, List.count_eq_zero_of_not_mem hnd.1]
    · have hab : a ≠ b := fun h => hnd.1 (h ▸ hmem)
      rw [List.count_cons_of_ne hab, ih hnd.2 hmem]

/-- Each in-range position occurs exactly once in the scan list. -/
theorem count_rasterPositions {H W : ℕ} {p : ℕ × ℕ}
    (h1 : p.1 < H) (h2 : p.2 < W) : (rasterPositions H W).count p = 1 := by
  have hnd : (rasterPositions H W).Nodup := by
    refine (pairwise_rasterPositions H W).imp ?_
    intro a b hab heq
    exact rasterLt_asymm hab (heq ▸ hab)
  exact count_eq_one_of_nodup_mem hnd (mem_rasterPositions.mpr ⟨h1, h2⟩)

/-- Folding the sampler transition over a position list never touches a
position outside the list. -/
theorem foldl_sampleStep_not_mem (ms : Canvas → Canvas) :
    ∀ (L : List (ℕ × ℕ)) (c : Canvas) (q : ℕ × ℕ), q ∉ L →
      (L.foldl (sampleStep ms) c) q = c q := by
  intro L
  induction L with
  | nil => intro c q _; rfl
  | cons p L ih =>
    intro c q hq
    rw [List.foldl_cons, ih _ q (fun h => hq (List.mem_cons_of_mem p h))]
    have hqp : q ≠ p := fun h => hq (h ▸ List.mem_cons_self p L)
    simp [sampleStep, hqp]

/-!
## Claims C5 and C1
-/

/-- Claim C5: the canvas starts all zero; the sampler visits positions in
strictly increasing row-major order; every in-range position is visited
exactly once and each transition writes exactly its own position; and at
the step for any position `p`, every position strictly after `p` in raster
order still holds zero. -/
theorem C5_raster_completeness (ms : Canvas → Canvas) (H W : ℕ) :
    (∀ q, zeroCanvas q = 0) ∧
    (rasterPositions H W).Pairwise rasterLt ∧
    (∀ p : ℕ × ℕ, p.1 < H → p.2 < W → (rasterPositions H W).count p = 1) ∧
    (∀ c p, sampleStep ms c p p = ms c p ∧
      ∀ q, q ≠ p → sampleStep ms c p q = c q) ∧
    (∀ l₁ p l₂, rasterPositions H W = l₁ ++ p :: l₂ →
      ∀ q, rasterLt p q → (l₁.foldl (sampleStep ms) zeroCanvas) q = 0) ∧
    sample_from_model ms H W
      = (rasterPositions H W).foldl (sampleStep ms) zeroCanvas := by
  refine ⟨fun _ => rfl, pairwise_rasterPositions H W,
    fun p h1 h2 => count_rasterPositions h1 h2, ?_, ?_, rfl⟩
  · intro c p
    constructor
    · simp [sampleStep]
    · intro q hq
      simp [sampleStep, hq]
  · intro l₁ p l₂ hsplit q hq
    have hpw := pairwise_rasterPositions H W
    rw [hsplit, List.pairwise_append] at hpw
    have hq1 : q ∉ l₁ := by
      intro hmem
      exact rasterLt_asymm hq (hpw.2.2 q hmem p (List.mem_cons_self p l₂))
    rw [foldl_sampleStep_not_mem ms l₁ zeroCanvas q hq1]
    rfl

/-- Witness for C5: in a 2×2 scan, position (1,0) is visited exactly
once. -/
theorem C5_raster_completeness_witness :
    (rasterPositions 2 2).count (1, 0) = 1 :=
  (C5_raster_completeness (fun _ _ => 5) 2 2).2.2.1 (1, 0) (by decide) (by decide)

/-- Claim C1 counterexample: the sampling invocation that builds
`new_x_gen` passes `ema=None` (train.py line 135), so with live parameters
0 and shadow parameters 1 it reads the live value 0, not the shadow value —
refuting that the sampler runs the model with the shadow (EMA)
parameters. -/
theorem C1_counterexample :
    sampleCall.useEma = false ∧
    paramsUsed (0 : ℚ) 1 sampleCall = 0 ∧ (0 : ℚ) ≠ 1 :=
  ⟨rfl, rfl, by norm_num⟩

/-- Claim C1 (amended): at every raster position the sampler's transition
runs the opaque model on the entire current canvas using the live
parameters (`ema=None`) with dropout disabled, draws a sample from the
returned distribution restricted to that position, and commits only that
position's values into the canvas. -/
theorem C1_sampler_transition {P : Type} (live shadow : P)
    (ms : Canvas → Canvas) (c : Canvas) (p : ℕ × ℕ) :
    paramsUsed live shadow sampleCall = live ∧
    sampleCall.dropoutP = 0 ∧
    sampleStep ms c p p = ms c p ∧
    (∀ q, q ≠ p → sampleStep ms c p q = c q) := by
  refine ⟨rfl, rfl, by simp [sampleStep], ?_⟩
  intro q hq
  simp [sampleStep, hq]

/-- Witness for C1 (amended) at a concrete canvas and position. -/
theorem C1_sampler_transition_witness :
    ((0, 0) : ℕ × ℕ) ≠ (1, 2) ∧
    sampleStep (fun _ _ => 7) zeroCanvas (1, 2) (0, 0) = zeroCanvas (0, 0) :=
  ⟨by decide,
    (C1_sampler_transition (0 : ℚ) 1 (fun _ _ => 7) zeroCanvas (1, 2)).2.2.2
      (0, 0) (by decide)⟩

/-!
## Claims C8, C9, C10
-/

/-- The init pass can only appear in epoch 0's events. -/
theorem initPass_in_epochEvents {cfg : RunConfig} {e nb : ℕ}
    (h : Event.initPass ∈ epochEvents cfg e nb) : e = 0 := by
  by_contra he
  rw [epochEvents, if_neg he] at h
  simp only [List.nil_append, List.mem_append, List.mem_replicate] at h
  rcases h with ⟨_, h⟩ | h
  · exact Event.noConfusion h
  · by_cases hs : e % cfg.saveInterval = 0
    · rw [if_pos hs] at h
      simp at h
    · rw [if_neg hs] at h
      simp at h

/-- Claim C8 counterexample: in the execution with `--load_params` set
(one epoch, one batch), the restore branch runs instead of the init pass,
so the init-mode pass runs zero times, not once. -/
theorem C8_counterexample :
    (programTrace ⟨true, 1, 20⟩ (fun _ => 1)).count Event.initPass = 0 ∧
    ¬ (programTrace ⟨true, 1, 20⟩ (fun _ => 1)).count Event.initPass = 1 := by
  constructor <;> decide

/-- Claim C8 (amended): in every execution that does not restore a
checkpoint (`load_params` unset) and runs at least one epoch, the
data-dependent init pass runs exactly once, as the very first event —
strictly before every optimizer invocation and every training-mode
forward/backward pass. -/
theorem C8_init_ordering (cfg : RunConfig) (batchesIn : ℕ → ℕ)
    (hload : cfg.loadParams = false) (hep : 1 ≤ cfg.maxEpochs) :
    ∃ rest, programTrace cfg batchesIn = Event.initPass :: rest ∧
      Event.initPass ∉ rest := by
  obtain ⟨k, hk⟩ : ∃ k, cfg.maxEpochs = k + 1 := ⟨cfg.maxEpochs - 1, by omega⟩
  have h0 : epochEvents cfg 0 (batchesIn 0)
      = Event.initPass :: (List.replicate (batchesIn 0 - 1) Event.trainStep
          ++ (if 0 % cfg.saveInterval = 0 then [Event.saveBlock] else [])) := by
    rw [epochEvents, if_pos rfl, hload]
    simp
  rw [programTrace, hk, List.range_succ_eq_map, List.flatMap_cons, h0]
  refine ⟨_, rfl, ?_⟩
  intro hmem
  rcases List.mem_append.mp hmem with h | h
  · rcases List.mem_append.mp h with h | h
    · exact Event.noConfusion (List.eq_of_mem_replicate h)
    · by_cases hs : 0 % cfg.saveInterval = 0
      · rw [if_pos hs] at h
        simp at h
      · rw [if_neg hs] at h
        simp at h
  · rw [List.mem_flatMap] at h
    obtain ⟨e, he, hin⟩ := h
    rw [List.mem_map] at he
    obtain ⟨j, _, rfl⟩ := he
    exact Nat.succ_ne_zero j (initPass_in_epochEvents hin)

/-- Witness for C8 (amended) at a concrete one-epoch configuration. -/
theorem C8_init_ordering_witness :
    ∃ rest, programTrace ⟨false, 1, 20⟩ (fun _ => 2)
        = Event.initPass :: rest ∧ Event.initPass ∉ rest :=
  C8_init_ordering ⟨false, 1, 20⟩ (fun _ => 2) rfl (by decide)

/-- `make_feed_dict` in training mode is `np.split` after scaling. -/
theorem make_feed_dict_false (data : List ℚ) (n : ℕ) :
    make_feed_dict data n false = np_split (data.map scalePixel) n := rfl

/-- A successful `np.split` yields `n` slices, each carrying
`length / n` rows. -/
theorem np_split_length {α : Type} (x : List α) (n : ℕ)
    (hn : n ≠ 0) (hd : n ∣ x.length) :
    ∃ parts, np_split x n = some parts ∧ parts.length = n ∧
      ∀ part ∈ parts, part.length = x.length / n := by
  refine ⟨_, by rw [np_split, if_pos ⟨hn, hd⟩], by simp, ?_⟩
  intro part hpart
  rw [List.mem_map] at hpart
  obtain ⟨i, hi, rfl⟩ := hpart
  rw [List.mem_range] at hi
  rw [List.length_take, List.length_drop]
  obtain ⟨q, hq⟩ := hd
  have hdiv : x.length / n = q := by
    rw [hq]
    exact Nat.mul_div_cancel_left q (Nat.pos_of_ne_zero hn)
  rw [hdiv, hq]
  have hle : i * q + q ≤ n * q := by
    calc i * q + q = (i + 1) * q := by ring
    _ ≤ n * q := Nat.mul_le_mul_right q hi
  omega

/-- `splitOutcome` when `np.split` rejects the batch. -/
theorem splitOutcome_of_none {b g : ℕ}
    (h : make_feed_dict (List.replicate b (0 : ℚ)) g false = none) :
    splitOutcome b g = some Phase.trainLoop := by
  unfold splitOutcome
  rw [h]

/-- `splitOutcome` when `np.split` succeeds: it comes down to whether the
slices fit the `batch_size`-row training placeholders. -/
theorem splitOutcome_of_some {b g : ℕ} {parts : List (List ℚ)}
    (h : make_feed_dict (List.replicate b (0 : ℚ)) g false = some parts) :
    splitOutcome b g
      = if feedFits parts b then none else some Phase.trainLoop := by
  unfold splitOutcome
  rw [h]

/-- `firstFailure` with a known nonlinearity comes down to the init feed
fit and then the training feed outcome. -/
theorem firstFailure_unfold (b i g : ℕ) (nonlin : String)
    (h : nonlinearityOk nonlin = true) :
    firstFailure b i g nonlin
      = if feedFits [(List.replicate b (0 : ℚ)).map scalePixel] i then
          splitOutcome b g
        else some Phase.initRun := by
  unfold firstFailure
  rw [h]
  rfl

/-- The init feed is one block of `batch_size` rows, so it fits `x_init`
exactly when `init_batch_size` equals the stream's batch size. -/
theorem feedFits_init (b i : ℕ) :
    feedFits [(List.replicate b (0 : ℚ)).map scalePixel] i = (b == i) := by
  simp [feedFits]

/-- Claim C9 counterexample: with batch size 16 (and matching init batch
size), 3 devices (16 not divisible by 3) and a known nonlinearity, the run
does not fail before device work: the failure surfaces only in the
training loop, when `np.split` rejects the first feed dict. -/
theorem C9_counterexample :
    firstFailure 16 16 3 "concat_elu" = some Phase.trainLoop ∧
    beforeDeviceWork Phase.trainLoop = false ∧
    ¬ (3 ∣ 16) := by
  refine ⟨by decide, rfl, by decide⟩

/-- Claim C9 (amended): no ConfigurationError or fail-fast validation
exists.  An unknown nonlinearity name is rejected during graph
construction, before device work.  Every other configuration failure
surfaces only at a session run: an init batch size differing from the
batch size fails the init feed; a batch size not divisible by the device
count fails at `np.split` when the first training feed dict is built,
mid-training; and even a divisible batch size fails at the first training
session run for every device count ≥ 2, because the per-device
placeholders declare `batch_size` rows while the feed slices carry
`batch_size / nr_gpu`.  Only single-device runs with matching init batch
size pass all of these checks. -/
theorem C9_failure_phases (batchSize initBatchSize nrGpu : ℕ)
    (nonlin : String) :
    (nonlinearityOk nonlin = false →
      firstFailure batchSize initBatchSize nrGpu nonlin
          = some Phase.graphBuild ∧
      beforeDeviceWork Phase.graphBuild = true) ∧
    (nonlinearityOk nonlin = true → initBatchSize ≠ batchSize →
      firstFailure batchSize initBatchSize nrGpu nonlin
          = some Phase.initRun ∧
      beforeDeviceWork Phase.initRun = false) ∧
    (nonlinearityOk nonlin = true → initBatchSize = batchSize →
      ¬ nrGpu ∣ batchSize →
      firstFailure batchSize initBatchSize nrGpu nonlin
          = some Phase.trainLoop ∧
      beforeDeviceWork Phase.trainLoop = false) ∧
    (nonlinearityOk nonlin = true → initBatchSize = batchSize →
      nrGpu ∣ batchSize → 2 ≤ nrGpu → batchSize ≠ 0 →
      firstFailure batchSize initBatchSize nrGpu nonlin
          = some Phase.trainLoop) ∧
    (nonlinearityOk nonlin = true → initBatchSize = batchSize → nrGpu = 1 →
      firstFailure batchSize initBatchSize nrGpu nonlin = none) := by
  have hlen : ((List.replicate batchSize (0 : ℚ)).map scalePixel).length
      = batchSize := by simp
  refine ⟨?_, ?_, ?_, ?_, ?_⟩
  · intro h
    rw [firstFailure, h]
    exact ⟨rfl, rfl⟩
  · intro h hne
    rw [firstFailure_unfold _ _ _ _ h, feedFits_init,
      if_neg (by simp; omega)]
    exact ⟨rfl, rfl⟩
  · intro h hie hdvd
    have hnone : make_feed_dict (List.replicate batchSize (0 : ℚ)) nrGpu false
        = none := by
      rw [make_feed_dict_false, np_split, if_neg]
      intro hc
      exact hdvd (by simpa using hc.2)
    rw [firstFailure_unfold _ _ _ _ h, feedFits_init,
      if_pos (by simp [hie]), splitOutcome_of_none hnone]
    exact ⟨rfl, rfl⟩
  · intro h hie hdvd hg hb
    obtain ⟨parts, hsome, hplen, hpartlen⟩ :=
      np_split_length ((List.replicate batchSize (0 : ℚ)).map scalePixel)
        nrGpu (by omega) (by rw [hlen]; exact hdvd)
    have hsome' : make_feed_dict (List.replicate batchSize (0 : ℚ)) nrGpu false
        = some parts := by rw [make_feed_dict_false, hsome]
    have hq : ∀ part ∈ parts, part.length = batchSize / nrGpu := by
      intro part hp
      rw [hpartlen part hp, hlen]
    have hlt : batchSize / nrGpu < batchSize :=
      Nat.div_lt_self (Nat.pos_of_ne_zero hb) hg
    have hff : feedFits parts batchSize = false := by
      cases hval : feedFits parts batchSize with
      | false => rfl
      | true =>
        have hne : parts ≠ [] := by
          intro hnil
          rw [hnil] at hplen
          simp at hplen
          omega
        obtain ⟨part, hmem⟩ := List.exists_mem_of_ne_nil parts hne
        have := List.all_eq_true.mp hval part hmem
        rw [beq_iff_eq] at this
        rw [hq part hmem] at this
        omega
    rw [firstFailure_unfold _ _ _ _ h, feedFits_init, if_pos (by simp [hie]),
      splitOutcome_of_some hsome', hff]
    rfl
  · intro h hie hg
    subst hg
    obtain ⟨parts, hsome, hplen, hpartlen⟩ :=
      np_split_length ((List.replicate batchSize (0 : ℚ)).map scalePixel)
        1 (by omega) (by rw [hlen]; exact Nat.one_dvd _)
    have hsome' : make_feed_dict (List.replicate batchSize (0 : ℚ)) 1 false
        = some parts := by rw [make_feed_dict_false, hsome]
    have hff : feedFits parts batchSize = true := by
      rw [feedFits, List.all_eq_true]
      intro part hmem
      rw [beq_iff_eq, hpartlen part hmem, hlen, Nat.div_one]
    rw [firstFailure_unfold _ _ _ _ h, feedFits_init, if_pos (by simp [hie]),
      splitOutcome_of_some hsome', if_pos hff]

/-- Witness for C9 (amended): even the divisible two-device configuration
(batch 16, init batch 16, 2 devices) fails in the training loop, at the
first session run. -/
theorem C9_failure_phases_witness :
    firstFailure 16 16 2 "elu" = some Phase.trainLoop :=
  (C9_failure_phases 16 16 2 "elu").2.2.2.1 (by decide) rfl (by decide)
    (by decide) (by decide)

/-- Claim C10 counterexample: the running-bits-per-dim npz written by the
save block has the same, epoch-free name at epochs 20 and 40, and its
payload is empty (`np.savez` is passed no arrays; `test_bpd` is never
populated) — refuting both the epoch-indexed naming and the logged
contents for the third artifact. -/
theorem C10_counterexample :
    ((saveBlockArtifacts "data" 20 []).map Artifact.name)[3]?
      = ((saveBlockArtifacts "data" 40 []).map Artifact.name)[3]? ∧
    ((saveBlockArtifacts "data" 20 []).map Artifact.payload)[3]?
      = some ([] : List ℚ) := by
  constructor <;> rfl

/-- Claim C10 (amended): on every epoch whose index is a multiple of the
save interval the save block runs, writing the tiled-image file and the
raw sample array file under names that include the epoch index, plus the
checkpoint and a `test_bpd` npz whose name is fixed (epoch-free) and whose
payload is empty, since the running evaluation list is never populated nor
passed to the writer. -/
theorem C10_save_artifacts (dir : String) (e : ℕ) (sx : List ℚ)
    (cfg : RunConfig) (nb : ℕ) :
    saveBlockArtifacts dir e sx
      = [⟨dir ++ "/Montezuma_sample" ++ toString e ++ ".png",
            ArtifactKind.image, sx.take 100⟩,
         ⟨dir ++ "/Montezuma_sample" ++ toString e ++ ".npz",
            ArtifactKind.array, sx⟩,
         ⟨dir ++ "/params_" ++ "Montezuma + " ++ ".ckpt",
            ArtifactKind.ckpt, []⟩,
         ⟨dir ++ "/test_bpd_" ++ "Montezuma + " ++ ".npz",
            ArtifactKind.npzLog, []⟩] ∧
    (∀ e2, ((saveBlockArtifacts dir e sx)[3]?).map Artifact.name
        = ((saveBlockArtifacts dir e2 sx)[3]?).map Artifact.name) ∧
    ((saveBlockArtifacts dir e sx)[3]?).map Artifact.payload = some [] ∧
    test_bpd_values = [] ∧
    (Event.saveBlock ∈ epochEvents cfg e nb ↔ e % cfg.saveInterval = 0) := by
  have hp1 : Event.saveBlock ∉
      (if e = 0 then
        (if cfg.loadParams then [Event.restoreCkpt] else [Event.initPass])
       else []) := by
    split
    · split <;> simp
    · simp
  refine ⟨rfl, fun e2 => rfl, rfl, rfl, ?_⟩
  constructor
  · intro h
    by_contra hs
    rw [epochEvents, if_neg hs, List.append_nil] at h
    rcases List.mem_append.mp h with h | h
    · exact hp1 h
    · exact Event.noConfusion (List.eq_of_mem_replicate h)
  · intro hs
    rw [epochEvents, if_pos hs]
    simp

/-- Witness for C10 (amended): epoch 0 is a multiple of the save interval,
so its events include the save block. -/
theorem C10_save_artifacts_witness :
    Event.saveBlock ∈ epochEvents ⟨false, 1, 20⟩ 0 1 :=
  (C10_save_artifacts "data" 0 [] ⟨false, 1, 20⟩ 1).2.2.2.2.mpr (by decide)

end PixelCnn
